import Mathlib

/-!
Verification model of `src/mock-c-lightning.py` (class `MockDaemon` and its
persisted `DaemonState`), a mock of the invoice-management subset of a
c-lightning node driven by a virtual clock.

Modelling conventions:
* Python ints are `Int` (arbitrary precision, as in Python).
* The wall clock value `int(time.time())` is threaded as an explicit `wall`
  argument; `_get_time` adds the stored `time_offset` to it.
* Invoice dicts become a structure.  The fields added only by `_set_paid`
  (`pay_index`, `paid_at`, `paid_timestamp`, `msatoshi_recieved` — the last
  spelled as in the source) are `Option`s, `none` meaning "key absent".
* The cryptographic outputs `payment_hash` (SHA-256 of the preimage) and
  `bolt11` (external encoder) are opaque strings supplied to `invoice` by its
  caller; no claim depends on their values.
* Fallible paths are explicit: `sys.exit` on a duplicate label, the
  `NameError` raised by `_iter_remaining` (its body reads the unbound module
  name `state`), the `TypeError` of `now - None` in `_autoclean`, and the
  `KeyError` of reading `pay_index` off a paid invoice that lacks it, are all
  `Except.error` / `none` results.  In the persistent CLI daemon (the
  `__main__` entry point) an uncaught exception kills the process before
  `write_state`, so the stored state is unchanged; the `step` function below
  reflects that.
-/

/-- One invoice record, as built by `_new_invoice` (lines 96-107) and extended
in place by `_set_paid` (lines 193-200).  `msatoshi_recieved` keeps the
source's spelling of the dict key. -/
structure Invoice where
  label : String
  bolt11 : String
  payment_hash : String
  msatoshi : Int
  status : String
  expires_at : Int
  expiry_time : Int
  pay_index : Option Int := none
  paid_at : Option Int := none
  paid_timestamp : Option Int := none
  msatoshi_recieved : Option Int := none
deriving Repr, DecidableEq

/-- The persisted daemon state (`DaemonState`, lines 30-63).
`autoclean_last_clean` is `None` in the empty state, hence an `Option`. -/
structure DaemonState where
  time_offset : Int
  autoclean_cycle_seconds : Int
  autoclean_last_clean : Option Int
  autoclean_expired_by : Int
  invoices : List Invoice
deriving Repr, DecidableEq

/-- Model of `DaemonState.empty_state` (lines 40-45). -/
def empty_state : DaemonState :=
  { time_offset := 0
    autoclean_cycle_seconds := 0
    autoclean_last_clean := none
    autoclean_expired_by := 86400
    invoices := [] }

/-- Model of `MockDaemon._get_time` (lines 74-75): wall clock plus the stored offset. -/
def _get_time (wall : Int) (s : DaemonState) : Int :=
  wall + s.time_offset

/-- Arguments of the `invoice` subcommand (lines 243-252). -/
structure InvoiceArgs where
  msatoshi : Int
  label : String
  description : String
  expiry : Int
  preimage : String
deriving Repr, DecidableEq

/-- Model of `MockDaemon._new_invoice` (lines 96-107).  `payment_hash` and `bolt11`
stand for the results of `_get_payment_hash` / `_gen_bolt11`, which are
external cryptographic encodings. -/
def _new_invoice (now : Int) (a : InvoiceArgs) (payment_hash bolt11 : String) :
    Invoice :=
  { label := a.label
    bolt11 := bolt11
    payment_hash := payment_hash
    msatoshi := a.msatoshi
    status := "unpaid"
    expires_at := now + a.expiry
    expiry_time := now + a.expiry }

/-- The JSON object returned by a successful `invoice` call (lines 116-120). -/
structure InvoiceOutput where
  payment_hash : String
  expiry_time : Int
  expires_at : Int
  bolt11 : String
deriving Repr, DecidableEq

/-- Model of `MockDaemon.invoice` (lines 109-121).  A duplicate label hits
`sys.exit("*** label already in set?")`: a fatal, caller-visible failure
raised before the store is touched. -/
def invoice (wall : Int) (s : DaemonState) (a : InvoiceArgs)
    (payment_hash bolt11 : String) :
    Except String (DaemonState × InvoiceOutput) :=
  if (s.invoices.map Invoice.label).contains a.label then
    .error "*** label already in set?"
  else
    let i := _new_invoice (_get_time wall s) a payment_hash bolt11
    .ok ({ s with invoices := s.invoices ++ [i] },
         { payment_hash := i.payment_hash
           expiry_time := i.expiry_time
           expires_at := i.expires_at
           bolt11 := i.bolt11 })

/-- The status-flipping loop at the top of `listinvoices` (lines 149-153):
an unpaid invoice whose `expires_at` lies strictly before the current
timestamp is flipped to expired; everything else is untouched. -/
def markExpired (timestamp : Int) (i : Invoice) : Invoice :=
  if i.status ≠ "unpaid" then i
  else if timestamp > i.expires_at then { i with status := "expired" } else i

/-- Model of `MockDaemon._iter_remaining` (lines 125-131).  The body reads the bare
name `state` (not `self.state`), which is unbound at module scope, so the
generator raises `NameError` as soon as its loop body first runs — that is,
whenever the invoice list is nonempty.  On an empty list the loop body never
runs and the generator yields nothing. -/
def _iter_remaining (now : Int) (invoices : List Invoice) :
    Except String (List Invoice) :=
  match now, invoices with
  | _, [] => .ok []
  | _, _ :: _ => .error "NameError: name state is not defined"

/-- Model of `MockDaemon._autoclean` (lines 133-145).  Notes:
* `now - self.state['autoclean_last_clean']` raises `TypeError` when
  `autoclean_last_clean` is `None` (it is only reachable with
  `autoclean_cycle_seconds ≠ 0`, which `autocleaninvoice` always pairs with a
  concrete timestamp, so this path never fires on reachable states).
* The `for` loop at lines 140-142 has a body consisting only of
  `continue` — it is a no-op and is not modelled.
* The pruning assignment calls `list(self._iter_remaining(now))`, which
  raises unless the invoice list is empty; `autoclean_last_clean` is updated
  only after that assignment succeeds. -/
def _autoclean (now : Int) (s : DaemonState) : Except String DaemonState :=
  if s.autoclean_cycle_seconds = 0 then .ok s
  else
    match s.autoclean_last_clean with
    | none => .error "TypeError: unsupported operand type(s) for -"
    | some last_clean =>
      if now - last_clean < s.autoclean_cycle_seconds then .ok s
      else
        match _iter_remaining now s.invoices with
        | .error e => .error e
        | .ok remaining =>
          .ok { s with invoices := remaining, autoclean_last_clean := some now }

/-- Model of `MockDaemon.listinvoices` (lines 147-156): flip overdue unpaid invoices
to expired, run `_autoclean`, persist, and return the invoice list. -/
def listinvoices (wall : Int) (s : DaemonState) :
    Except String (DaemonState × List Invoice) :=
  let timestamp := _get_time wall s
  let s1 := { s with invoices := s.invoices.map (markExpired timestamp) }
  match _autoclean timestamp s1 with
  | .error e => .error e
  | .ok s2 => .ok (s2, s2.invoices)

/-- Arguments of the `autocleaninvoice` subcommand (lines 261-271). -/
structure AutocleanArgs where
  cycle_seconds : Int
  expired_by : Int
deriving Repr, DecidableEq

/-- Model of `MockDaemon.autocleaninvoice` (lines 160-166): reconfigure the three
autoclean parameters, stamping `autoclean_last_clean` with the current
virtual time. -/
def autocleaninvoice (wall : Int) (s : DaemonState) (a : AutocleanArgs) :
    DaemonState :=
  { s with
    autoclean_cycle_seconds := a.cycle_seconds
    autoclean_last_clean := some (_get_time wall s)
    autoclean_expired_by := a.expired_by }

/-- The error objects `{"code": -1, "message": ...}` returned as values by
`delinvoice` and `markpaid`. -/
structure RpcError where
  code : Int
  message : String
deriving Repr, DecidableEq

/-- Model of `MockDaemon.delinvoice` (lines 170-183): find the first invoice with the
given label; report `Unknown invoice` if there is none, `Wrong status` if its
status differs from the expected one, and otherwise drop every invoice with
that label.  Error returns do not touch the store. -/
def delinvoice (s : DaemonState) (label status : String) :
    DaemonState × Option RpcError :=
  match s.invoices.find? (fun i => i.label = label) with
  | none => (s, some { code := -1, message := "Unknown invoice" })
  | some inv =>
    if inv.status ≠ status then
      (s, some { code := -1, message := "Wrong status" })
    else
      ({ s with invoices := s.invoices.filter (fun i => i.label ≠ label) },
       none)

/-- Model of `MockDaemon._get_next_pay_index` (lines 187-191): one more than the
maximum `pay_index` among invoices currently paid (0 if there are none).
Reading `pay_index` off a paid invoice that lacks the key would be a
`KeyError`, modelled as `none`. -/
def _get_next_pay_index (invoices : List Invoice) : Option Int := do
  let i_list ← (invoices.filter (fun i => i.status = "paid")).mapM
    (fun i => i.pay_index)
  let current_max := match i_list.max? with | some m => m | none => 0
  return current_max + 1

/-- Model of `MockDaemon._set_paid` (lines 193-200): compute the next pay index from
the whole current invoice list, then overwrite the invoice's fields.  The 33
msat added to `msatoshi` is the source's fixed fee surcharge. -/
def _set_paid (now : Int) (invoices : List Invoice) (i : Invoice) :
    Option Invoice := do
  let pay_index ← _get_next_pay_index invoices
  return { i with
           status := "paid"
           paid_at := some now
           paid_timestamp := some now
           msatoshi_recieved := some (i.msatoshi + 33)
           pay_index := some pay_index }

/-- The search loop of `markpaid` (lines 203-207): pay the first invoice
whose label matches, in place; `all` is the full invoice list used for the
pay-index computation.  `ok none` means no label matched. -/
def markpaidLoop (now : Int) (all : List Invoice) (label : String) :
    List Invoice → Except String (Option (List Invoice))
  | [] => .ok none
  | i :: rest =>
    if i.label = label then
      match _set_paid now all i with
      | none => .error "KeyError: pay_index"
      | some i' => .ok (some (i' :: rest))
    else
      match markpaidLoop now all label rest with
      | .error e => .error e
      | .ok none => .ok none
      | .ok (some rest') => .ok (some (i :: rest'))

/-- Model of `MockDaemon.markpaid` (lines 202-208): pay the first invoice with the
given label; if none matches, return the `unknown invoice` error object. -/
def markpaid (wall : Int) (s : DaemonState) (label : String) :
    Except String (DaemonState × Option RpcError) :=
  let now := _get_time wall s
  match markpaidLoop now s.invoices label s.invoices with
  | .error e => .error e
  | .ok none => .ok (s, some { code := -1, message := "unknown invoice" })
  | .ok (some invoices') => .ok ({ s with invoices := invoices' }, none)

/-- Model of `MockDaemon.advancetime` (lines 212-215): add `seconds` (any integer,
possibly negative) to the stored offset. -/
def advancetime (s : DaemonState) (seconds : Int) : DaemonState :=
  { s with time_offset := s.time_offset + seconds }

/-- One subcommand of the CLI daemon (`run_cmd`, lines 237-304), with the
externally computed `payment_hash`/`bolt11` attached to `invoice`. -/
inductive Op where
  | invoice (a : InvoiceArgs) (payment_hash bolt11 : String)
  | listinvoices
  | autocleaninvoice (a : AutocleanArgs)
  | delinvoice (label status : String)
  | markpaid (label : String)
  | advancetime (seconds : Int)
  | reset
deriving Repr, DecidableEq

/-- Effect of one CLI invocation at wall-clock second `wall` on the persisted
state.  On success the new state is written (`write_state`); if the operation
raises (duplicate-label `sys.exit`, or the `NameError`/`TypeError`/`KeyError`
paths), the process dies before `write_state`, so the stored state is
unchanged.  The error objects returned by `delinvoice`/`markpaid` also leave
the store untouched.  `reset` (lines 219-222) restores the empty state. -/
def step (wall : Int) (op : Op) (s : DaemonState) : DaemonState :=
  match op with
  | .invoice a ph b11 =>
    match invoice wall s a ph b11 with
    | .ok (s', _) => s'
    | .error _ => s
  | .listinvoices =>
    match listinvoices wall s with
    | .ok (s', _) => s'
    | .error _ => s
  | .autocleaninvoice a => autocleaninvoice wall s a
  | .delinvoice label status => (delinvoice s label status).1
  | .markpaid label =>
    match markpaid wall s label with
    | .ok (s', _) => s'
    | .error _ => s
  | .advancetime seconds => advancetime s seconds
  | .reset => empty_state

/-- Run a sequence of timestamped subcommands. -/
def runTrace (s : DaemonState) : List (Int × Op) → DaemonState
  | [] => s
  | (wall, op) :: tr => runTrace (step wall op s) tr

/-- States of the persisted store that some sequence of CLI invocations can
produce from the empty state. -/
inductive Reachable : DaemonState → Prop where
  | init : Reachable empty_state
  | next {s : DaemonState} (wall : Int) (op : Op) :
      Reachable s → Reachable (step wall op s)

/-- Whether an `Op` is the `autocleaninvoice` reconfiguration subcommand. -/
def Op.isAutocleanCfg : Op → Bool
  | .autocleaninvoice _ => true
  | _ => false

/-- Observer: a `listinvoices` call on state `s` at virtual time `now`
performs a *completed* autoclean pass (reaches and finishes lines 140-144 of
`_autoclean`) exactly when autoclean is enabled, the rate-limit window has
elapsed, and the pruning `list(self._iter_remaining(now))` does not raise —
which, `_iter_remaining` being broken, happens only on an empty store.  The
status-flipping loop that precedes `_autoclean` changes neither the autoclean
fields nor emptiness of the invoice list, so the test reads off `s` itself. -/
def passExecutes (now : Int) (s : DaemonState) : Bool :=
  s.autoclean_cycle_seconds != 0 &&
  (match s.autoclean_last_clean with
   | none => false
   | some last_clean => decide (s.autoclean_cycle_seconds ≤ now - last_clean)) &&
  s.invoices.isEmpty

/-- Observer: the virtual times of the completed autoclean passes performed
while running a trace of subcommands. -/
def passTimes (s : DaemonState) : List (Int × Op) → List Int
  | [] => []
  | (wall, op) :: tr =>
    let rest := passTimes (step wall op s) tr
    match op with
    | .listinvoices =>
      if passExecutes (_get_time wall s) s then _get_time wall s :: rest
      else rest
    | _ => rest

/-! Concrete scenario material used by the counterexamples and witnesses. -/

/-- Sample arguments of `invoice 10000 a desc 600 00`, label `a`. -/
def argsA : InvoiceArgs :=
  { msatoshi := 10000, label := "a", description := "desc", expiry := 600,
    preimage := "00" }

/-- Sample arguments of `invoice 10000 b desc 600 01`, label `b`. -/
def argsB : InvoiceArgs :=
  { msatoshi := 10000, label := "b", description := "desc", expiry := 600,
    preimage := "01" }

/-- Pay `a`, delete it while paid, then create and pay `b`. -/
def c1trace : List (Int × Op) :=
  [(0, .invoice argsA "ph0" "bolt0"),
   (0, .markpaid "a"),
   (0, .delinvoice "a" "paid"),
   (0, .invoice argsB "ph1" "bolt1"),
   (0, .markpaid "b")]

/-- A store holding the single fresh invoice `a` (created at virtual time 0
with expiry 600, so `expires_at = 600`). -/
def c2state : DaemonState :=
  runTrace empty_state [(0, .invoice argsA "ph0" "bolt0")]

/-- Create `a`, let it expire via `listinvoices` at virtual time 601, then
`markpaid a`. -/
def c3trace : List (Int × Op) :=
  [(0, .invoice argsA "ph0" "bolt0"),
   (601, .listinvoices),
   (601, .markpaid "a")]

/-- A reachable store with one invoice and autoclean armed
(`cycle_seconds = 60`, `last_clean = 0`): the next `listinvoices` at
virtual time ≥ 60 enters the pruning path. -/
def c4state : DaemonState :=
  runTrace empty_state
    [(0, .invoice argsA "ph0" "bolt0"), (0, .autocleaninvoice ⟨60, 10⟩)]

/-- Arm autoclean at virtual time 0, pass at 100, move time back, re-arm at
10, pass again at 70: two completed passes 30 < 60 apart. -/
def c5trace : List (Int × Op) :=
  [(0, .autocleaninvoice ⟨60, 10⟩),
   (0, .advancetime 100),
   (0, .listinvoices),
   (0, .advancetime (-90)),
   (0, .autocleaninvoice ⟨60, 10⟩),
   (0, .advancetime 60),
   (0, .listinvoices)]

/-- The store after creating invoice `a`, paying it, and creating `b`. -/
def c1wstate : DaemonState :=
  runTrace empty_state
    [(0, .invoice argsA "ph0" "bolt0"),
     (0, .markpaid "a"),
     (0, .invoice argsB "ph1" "bolt1")]

/-- The paid form of invoice `a` held in `c1wstate`. -/
def c1wpaid : Invoice :=
  { _new_invoice 0 argsA "ph0" "bolt0" with
    status := "paid"
    paid_at := some 0
    paid_timestamp := some 0
    msatoshi_recieved := some 10033
    pay_index := some 1 }

/-- The paid form of invoice `b` after `markpaid b` on `c1wstate`. -/
def c1wpaidB : Invoice :=
  { _new_invoice 0 argsB "ph1" "bolt1" with
    status := "paid"
    paid_at := some 0
    paid_timestamp := some 0
    msatoshi_recieved := some 10033
    pay_index := some 2 }

/-- Autoclean armed with `cycle_seconds = 60` at virtual time 0, empty
store. -/
def c5wstate : DaemonState :=
  step 0 (.autocleaninvoice ⟨60, 10⟩) empty_state

/-! # Theorems -/

/-- C9: `advancetime s` followed by `advancetime (-s)` restores
`time_offset`, and hence the virtual clock `_get_time`, to its prior
value, for every state and every integer `s`. -/
theorem C9_advancetime_roundtrip (s : DaemonState) (seconds wall : Int) :
    (advancetime (advancetime s seconds) (-seconds)).time_offset
        = s.time_offset ∧
    _get_time wall (advancetime (advancetime s seconds) (-seconds))
        = _get_time wall s := by
  constructor
  · show s.time_offset + seconds + -seconds = s.time_offset
    ring
  · show wall + (s.time_offset + seconds + -seconds) = wall + s.time_offset
    ring

/-- C10: `autocleaninvoice` only rewrites the three autoclean parameters
(`autoclean_cycle_seconds`, `autoclean_last_clean`, `autoclean_expired_by`);
the invoice collection and `time_offset` are untouched. -/
theorem C10_autocleaninvoice_frame (wall : Int) (s : DaemonState)
    (a : AutocleanArgs) :
    (autocleaninvoice wall s a).invoices = s.invoices ∧
    (autocleaninvoice wall s a).time_offset = s.time_offset ∧
    (autocleaninvoice wall s a).autoclean_cycle_seconds = a.cycle_seconds ∧
    (autocleaninvoice wall s a).autoclean_last_clean
        = some (_get_time wall s) ∧
    (autocleaninvoice wall s a).autoclean_expired_by = a.expired_by :=
  ⟨rfl, rfl, rfl, rfl, rfl⟩

/-- C6: creating an invoice whose label is already present fails with the
fatal, caller-visible duplicate-label condition (`sys.exit`) and leaves the
stored state — in particular the invoice collection — unchanged. -/
theorem C6_duplicate_label (wall : Int) (s : DaemonState) (a : InvoiceArgs)
    (ph b11 : String) (i : Invoice) (hi : i ∈ s.invoices)
    (hlab : i.label = a.label) :
    invoice wall s a ph b11 = .error "*** label already in set?" ∧
    step wall (.invoice a ph b11) s = s := by
  have hc : (s.invoices.map Invoice.label).contains a.label = true :=
    List.elem_iff.mpr (hlab ▸ List.mem_map_of_mem Invoice.label hi)
  have herr : invoice wall s a ph b11 = .error "*** label already in set?" := by
    unfold invoice
    rw [hc]
    rfl
  exact ⟨herr, by simp only [step]; rw [herr]⟩

/-- C6 witness: adding label `a` to a store already holding invoice `a`
fails and leaves the state unchanged. -/
theorem C6_duplicate_label_witness :
    invoice 0 c2state argsA "ph2" "bolt2"
        = .error "*** label already in set?" ∧
    step 0 (.invoice argsA "ph2" "bolt2") c2state = c2state :=
  C6_duplicate_label 0 c2state argsA "ph2" "bolt2"
    (_new_invoice 0 argsA "ph0" "bolt0") (by decide) rfl

/-- C4: the claim that `listinvoices` never fails is contradicted by the
code: when an autoclean pass actually executes on a nonempty store
(`autoclean_cycle_seconds ≠ 0` and the cycle interval elapsed), the pruning
generator `_iter_remaining` reads the unbound name `state` and the call dies
with a `NameError` instead of returning the invoices. -/
theorem C4_listinvoices_crashes :
    c4state.autoclean_cycle_seconds = 60 ∧
    c4state.autoclean_last_clean = some 0 ∧
    c4state.invoices.length = 1 ∧
    listinvoices 60 c4state = .error "NameError: name state is not defined" :=
  ⟨rfl, rfl, rfl, rfl⟩

/-- C1 counterexample: pay invoice `a` (it gets `pay_index = 1`), delete it
while paid, then create and pay invoice `b`: the second `markpaid` call
assigns `pay_index = 1` again, reusing the previously assigned value — so
pay indices are neither strictly increasing across the store's lifetime nor
free of reuse after deletion. -/
theorem C1_counterexample :
    ((runTrace empty_state (c1trace.take 2)).invoices.map
        (fun i => (i.label, i.pay_index)) = [("a", some 1)]) ∧
    ((runTrace empty_state c1trace).invoices.map
        (fun i => (i.label, i.pay_index)) = [("b", some 1)]) :=
  ⟨rfl, rfl⟩

/-- C2 counterexample: invoice `a` is created at virtual time `T = 0` with
`expiry = 600`; a `listinvoices` call observed at exactly `now = T + E = 600`
leaves its status `unpaid` (the code tests `timestamp > expires_at`,
strictly), contradicting the claim that the status is expired at the first
call with `now ≥ T + E` including equality. -/
theorem C2_counterexample :
    c2state.invoices.map (fun i => (i.status, i.expires_at))
        = [("unpaid", 600)] ∧
    listinvoices 600 c2state = .ok (c2state, c2state.invoices) :=
  ⟨rfl, rfl⟩

/-- C3 counterexample: on a reachable state holding the expired invoice `a`,
`markpaid a` flips its status from expired to paid — the expired status is
not terminal, contradicting the claimed monotone transition relation. -/
theorem C3_counterexample :
    (runTrace empty_state (c3trace.take 2)).invoices.map Invoice.status
        = ["expired"] ∧
    (runTrace empty_state c3trace).invoices.map Invoice.status = ["paid"] :=
  ⟨rfl, rfl⟩

/-- C5 counterexample: with `autoclean_cycle_seconds = 60` in force at both
passes, the trace `c5trace` performs completed autoclean passes at virtual
times 100 and 70 — only 30 < 60 apart (the intervening `autocleaninvoice`
call re-stamps `autoclean_last_clean` after time was moved backwards,
defeating the rate limit). -/
theorem C5_counterexample :
    passTimes empty_state c5trace = [100, 70] ∧
    (runTrace empty_state (c5trace.take 2)).autoclean_cycle_seconds = 60 ∧
    (runTrace empty_state (c5trace.take 6)).autoclean_cycle_seconds = 60 ∧
    (100 : Int) - 70 < 60 :=
  ⟨rfl, rfl, rfl, by decide⟩

/-! ## Helper lemmas -/

theorem markExpired_label (t : Int) (i : Invoice) :
    (markExpired t i).label = i.label := by
  unfold markExpired
  split <;> [rfl; split <;> rfl]

theorem markExpired_status (t : Int) (i : Invoice) :
    (markExpired t i).status = i.status ∨
      (i.status = "unpaid" ∧ (markExpired t i).status = "expired") := by
  unfold markExpired
  split
  · exact Or.inl rfl
  · split
    · rename_i h _
      exact Or.inr ⟨not_not.mp h, rfl⟩
    · exact Or.inl rfl

theorem markExpired_unpaid (t : Int) (i : Invoice) (h : i.status = "unpaid") :
    (markExpired t i).status = (if i.expires_at < t then "expired" else "unpaid") := by
  unfold markExpired
  rw [if_neg (by simp [h])]
  by_cases hlt : i.expires_at < t
  · rw [if_pos (by omega), if_pos hlt]
  · rw [if_neg (by omega), if_neg hlt]
    exact h

theorem autoclean_ok (now : Int) (s s' : DaemonState)
    (h : _autoclean now s = .ok s') :
    s'.invoices = s.invoices ∧
    s'.time_offset = s.time_offset ∧
    s'.autoclean_cycle_seconds = s.autoclean_cycle_seconds ∧
    s'.autoclean_expired_by = s.autoclean_expired_by := by
  unfold _autoclean at h
  split at h
  · cases h; exact ⟨rfl, rfl, rfl, rfl⟩
  · split at h
    · cases h
    · split at h
      · cases h; exact ⟨rfl, rfl, rfl, rfl⟩
      · split at h
        · cases h
        · rename_i remaining hrem
          cases h
          cases hinv : s.invoices with
          | nil =>
            rw [hinv] at hrem
            simp only [_iter_remaining] at hrem
            cases hrem
            exact ⟨rfl, rfl, rfl, rfl⟩
          | cons a l =>
            rw [hinv] at hrem
            simp only [_iter_remaining] at hrem
            cases hrem

theorem listinvoices_ok (wall : Int) (s s' : DaemonState) (out : List Invoice)
    (h : listinvoices wall s = .ok (s', out)) :
    s'.invoices = s.invoices.map (markExpired (_get_time wall s)) ∧
    out = s'.invoices ∧
    s'.time_offset = s.time_offset ∧
    s'.autoclean_cycle_seconds = s.autoclean_cycle_seconds ∧
    s'.autoclean_expired_by = s.autoclean_expired_by := by
  simp only [listinvoices] at h
  cases ha : _autoclean (_get_time wall s)
      { s with invoices := s.invoices.map (markExpired (_get_time wall s)) } with
  | error e => rw [ha] at h; cases h
  | ok s2 =>
    rw [ha] at h
    cases h
    obtain ⟨h1, h2, h3, h4⟩ := autoclean_ok _ _ _ ha
    exact ⟨h1, rfl, h2, h3, h4⟩

theorem invoice_ok (wall : Int) (s : DaemonState) (a : InvoiceArgs)
    (ph b11 : String) (s' : DaemonState) (o : InvoiceOutput)
    (h : invoice wall s a ph b11 = .ok (s', o)) :
    s' = { s with invoices :=
            s.invoices ++ [_new_invoice (_get_time wall s) a ph b11] } ∧
    (s.invoices.map Invoice.label).contains a.label = false := by
  unfold invoice at h
  split at h
  · cases h
  · rename_i hc
    cases h
    exact ⟨rfl, Bool.eq_false_iff.mpr hc⟩

theorem foldl_max_le_init (xs : List Int) (a b : Int) (h : b ≤ a) :
    b ≤ xs.foldl max a := by
  induction xs generalizing a with
  | nil => exact h
  | cons x xs ih => exact ih (max a x) (le_trans h (le_max_left a x))

theorem foldl_max_le_mem (xs : List Int) (a b : Int) (h : b ∈ xs) :
    b ≤ xs.foldl max a := by
  induction xs generalizing a with
  | nil => cases h
  | cons x xs ih =>
    rcases List.mem_cons.mp h with rfl | h'
    · exact foldl_max_le_init xs (max a b) b (le_max_right a b)
    · exact ih (max a x) h'

theorem max?_is_ub (l : List Int) (m : Int) (h : l.max? = some m) :
    ∀ b ∈ l, b ≤ m := by
  cases l with
  | nil => cases h
  | cons x xs =>
    simp only [List.max?] at h
    cases h
    intro b hb
    rcases List.mem_cons.mp hb with rfl | h'
    · exact foldl_max_le_init xs b b le_rfl
    · exact foldl_max_le_mem xs x b h'

theorem mapM_option_mem {α β : Type} (f : α → Option β) (l : List α)
    (ys : List β) (h : l.mapM f = some ys) :
    ∀ x ∈ l, ∃ y ∈ ys, f x = some y := by
  induction l generalizing ys with
  | nil => intro x hx; cases hx
  | cons a l ih =>
    rw [List.mapM_cons] at h
    intro x hx
    cases hfa : f a with
    | none => rw [hfa] at h; cases h
    | some y =>
      rw [hfa] at h
      cases hml : l.mapM f with
      | none => rw [hml] at h; cases h
      | some ys' =>
        rw [hml] at h
        cases h
        rcases List.mem_cons.mp hx with rfl | hx'
        · exact ⟨y, List.mem_cons_self y ys', hfa⟩
        · obtain ⟨z, hz, hfz⟩ := ih ys' hml x hx'
          exact ⟨z, List.mem_cons_of_mem y hz, hfz⟩

theorem next_pay_index_gt (invs : List Invoice) (n : Int)
    (h : _get_next_pay_index invs = some n) :
    ∀ j ∈ invs, j.status = "paid" → ∀ p, j.pay_index = some p → p < n := by
  intro j hj hpaid p hp
  unfold _get_next_pay_index at h
  cases hm : (invs.filter (fun i => i.status = "paid")).mapM
      (fun i => i.pay_index) with
  | none => rw [hm] at h; cases h
  | some i_list =>
    rw [hm] at h
    cases h
    have hjf : j ∈ invs.filter (fun i => i.status = "paid") :=
      List.mem_filter.mpr ⟨hj, by simp [hpaid]⟩
    obtain ⟨y, hy, hfy⟩ := mapM_option_mem _ _ _ hm j hjf
    rw [hp] at hfy
    cases hfy
    cases hmax : i_list.max? with
    | none => rw [List.max?_eq_none_iff] at hmax; rw [hmax] at hy; cases hy
    | some m =>
      have := max?_is_ub i_list m hmax p hy
      show p < m + 1
      omega

theorem next_pay_index_no_paid (invs : List Invoice)
    (h : ∀ j ∈ invs, ¬(j.status = "paid")) :
    _get_next_pay_index invs = some 1 := by
  have hf : invs.filter (fun i => i.status = "paid") = [] := by
    rw [List.filter_eq_nil_iff]
    intro a ha
    simpa using h a ha
  unfold _get_next_pay_index
  rw [hf]
  rfl

theorem set_paid_some (now : Int) (invs : List Invoice) (i i' : Invoice)
    (h : _set_paid now invs i = some i') :
    ∃ n, _get_next_pay_index invs = some n ∧
      i' = { i with
             status := "paid"
             paid_at := some now
             paid_timestamp := some now
             msatoshi_recieved := some (i.msatoshi + 33)
             pay_index := some n } := by
  unfold _set_paid at h
  cases hn : _get_next_pay_index invs with
  | none => rw [hn] at h; cases h
  | some n =>
    rw [hn] at h
    cases h
    exact ⟨n, rfl, rfl⟩

theorem markpaidLoop_ok_some (now : Int) (all : List Invoice) (label : String)
    (l l' : List Invoice) (h : markpaidLoop now all label l = .ok (some l')) :
    ∃ l1 i i' l2, l = l1 ++ i :: l2 ∧ l' = l1 ++ i' :: l2 ∧
      (∀ x ∈ l1, ¬(x.label = label)) ∧ i.label = label ∧
      _set_paid now all i = some i' := by
  induction l generalizing l' with
  | nil => cases h
  | cons a rest ih =>
    by_cases hl : a.label = label
    · rw [markpaidLoop, if_pos hl] at h
      cases hsp : _set_paid now all a with
      | none => rw [hsp] at h; cases h
      | some i' =>
        rw [hsp] at h
        cases h
        exact ⟨[], a, i', rest, rfl, rfl, fun x hx => absurd hx (List.not_mem_nil x), hl, hsp⟩
    · rw [markpaidLoop, if_neg hl] at h
      cases hrec : markpaidLoop now all label rest with
      | error e => rw [hrec] at h; cases h
      | ok o =>
        cases o with
        | none => rw [hrec] at h; cases h
        | some rest' =>
          rw [hrec] at h
          cases h
          obtain ⟨l1, i, i', l2, h1, h2, h3, h4, h5⟩ := ih rest' hrec
          refine ⟨a :: l1, i, i', l2, by rw [h1]; rfl, by rw [h2]; rfl, ?_, h4, h5⟩
          intro x hx
          rcases List.mem_cons.mp hx with rfl | hx'
          · exact hl
          · exact h3 x hx'

theorem markpaid_ok_none (wall : Int) (s : DaemonState) (label : String)
    (s' : DaemonState) (h : markpaid wall s label = .ok (s', none)) :
    ∃ l1 i i' l2, s.invoices = l1 ++ i :: l2 ∧ s'.invoices = l1 ++ i' :: l2 ∧
      (∀ x ∈ l1, ¬(x.label = label)) ∧ i.label = label ∧
      _set_paid (_get_time wall s) s.invoices i = some i' ∧
      s'.time_offset = s.time_offset ∧
      s'.autoclean_cycle_seconds = s.autoclean_cycle_seconds ∧
      s'.autoclean_last_clean = s.autoclean_last_clean ∧
      s'.autoclean_expired_by = s.autoclean_expired_by := by
  simp only [markpaid] at h
  cases hloop : markpaidLoop (_get_time wall s) s.invoices label s.invoices with
  | error e => rw [hloop] at h; cases h
  | ok o =>
    cases o with
    | none => rw [hloop] at h; cases h
    | some invoices' =>
      rw [hloop] at h
      cases h
      obtain ⟨l1, i, i', l2, h1, h2, h3, h4, h5⟩ :=
        markpaidLoop_ok_some _ _ _ _ _ hloop
      exact ⟨l1, i, i', l2, h1, h2, h3, h4, h5, rfl, rfl, rfl, rfl⟩

theorem find?_prefix_miss (l1 : List Invoice) (i : Invoice) (l2 : List Invoice)
    (label : String) (h3 : ∀ x ∈ l1, ¬(x.label = label)) (h4 : i.label = label) :
    (l1 ++ i :: l2).find? (fun j => j.label = label) = some i := by
  rw [List.find?_append]
  have hnone : l1.find? (fun j => j.label = label) = none :=
    List.find?_eq_none.mpr (fun x hx => by simpa using h3 x hx)
  rw [hnone, Option.none_or]
  exact List.find?_cons_of_pos _ (by simpa using h4)

/-- C1 amended: the `pay_index` that a successful `markpaid` call assigns (read
off the updated invoice, the first one carrying the label) is strictly greater
than every `pay_index` of an invoice currently stored as paid.  (It is computed
as one plus their maximum, so deleting a paid invoice can lower the maximum and
lets a previously assigned value be reassigned, as `C1_counterexample` shows.) -/
theorem C1_amended_next_index_exceeds_current (wall : Int) (s : DaemonState)
    (label : String) (s' : DaemonState) (i' : Invoice) (n : Int)
    (h : markpaid wall s label = .ok (s', none))
    (hfind : s'.invoices.find? (fun j => j.label = label) = some i')
    (hn : i'.pay_index = some n) :
    ∀ j ∈ s.invoices, j.status = "paid" → ∀ p, j.pay_index = some p → p < n := by
  obtain ⟨l1, i, i'', l2, h1, h2, h3, h4, h5, -⟩ := markpaid_ok_none _ _ _ _ h
  obtain ⟨m, hm, hi''⟩ := set_paid_some _ _ _ _ h5
  have hlab'' : i''.label = label := by rw [hi'']; exact h4
  have hfind2 : s'.invoices.find? (fun j => j.label = label) = some i'' := by
    rw [h2]; exact find?_prefix_miss l1 i'' l2 label h3 hlab''
  rw [hfind2] at hfind
  cases hfind
  have hpi : i'.pay_index = some m := by rw [hi'']
  rw [hpi] at hn
  cases hn
  exact next_pay_index_gt s.invoices n hm

/-- C7: in a store with no paid invoice, a successful `markpaid` on the
unpaid invoice carrying the label (which has `msatoshi = 10000`) rewrites it
to status `paid`, `pay_index = 1`, paid timestamps at the current virtual
time, and `msatoshi_recieved = 10033` (the amount plus the fixed 33 msat fee
surcharge). -/
theorem C7_markpaid_first_payment (wall : Int) (s : DaemonState)
    (label : String) (s' : DaemonState) (i : Invoice)
    (hfind : s.invoices.find? (fun j => j.label = label) = some i)
    (hunpaid : i.status = "unpaid")
    (hnopaid : ∀ j ∈ s.invoices, ¬(j.status = "paid"))
    (hmsat : i.msatoshi = 10000)
    (h : markpaid wall s label = .ok (s', none)) :
    s'.invoices.find? (fun j => j.label = label) = some
      { i with
        status := "paid"
        paid_at := some (_get_time wall s)
        paid_timestamp := some (_get_time wall s)
        msatoshi_recieved := some 10033
        pay_index := some 1 } := by
  obtain ⟨l1, i0, i'', l2, h1, h2, h3, h4, h5, -⟩ := markpaid_ok_none _ _ _ _ h
  obtain ⟨m, hm, hi''⟩ := set_paid_some _ _ _ _ h5
  have hi0 : i0 = i := by
    have := find?_prefix_miss l1 i0 l2 label h3 h4
    rw [← h1, hfind] at this
    cases this
    rfl
  subst hi0
  have hm1 : m = 1 := by
    rw [next_pay_index_no_paid s.invoices hnopaid] at hm
    cases hm
    rfl
  subst hm1
  have hlab'' : i''.label = label := by rw [hi'']; exact h4
  have hfind2 : s'.invoices.find? (fun j => j.label = label) = some i'' := by
    rw [h2]; exact find?_prefix_miss l1 i'' l2 label h3 hlab''
  rw [hfind2, hi'', hmsat]
  norm_num

/-- C8: `delinvoice label expected_status` returns the `Unknown invoice`
error object when no stored invoice has the label, returns the
`Wrong status` error object when the (first) invoice with the label has a
different status — the store unchanged in both cases — and otherwise removes
exactly that invoice: under the label-uniqueness invariant the new invoice
list is the old one with just that entry deleted. -/
theorem C8_delinvoice (s : DaemonState) (label status : String) :
    ((∀ i ∈ s.invoices, ¬(i.label = label)) →
       delinvoice s label status
         = (s, some { code := -1, message := "Unknown invoice" })) ∧
    (∀ i, s.invoices.find? (fun j => j.label = label) = some i →
       ¬(i.status = status) →
       delinvoice s label status
         = (s, some { code := -1, message := "Wrong status" })) ∧
    (∀ i l1 l2, s.invoices = l1 ++ i :: l2 →
       (∀ x ∈ l1, ¬(x.label = label)) → i.label = label → i.status = status →
       (s.invoices.map Invoice.label).Nodup →
       delinvoice s label status = ({ s with invoices := l1 ++ l2 }, none)) := by
  refine ⟨?_, ?_, ?_⟩
  · intro hno
    unfold delinvoice
    rw [List.find?_eq_none.mpr (fun x hx => by simpa using hno x hx)]
  · intro i hfind hne
    unfold delinvoice
    rw [hfind]
    dsimp only
    rw [if_pos hne]
  · intro i l1 l2 h1 h2 h3 h4 hnd
    unfold delinvoice
    rw [h1, find?_prefix_miss l1 i l2 label h2 h3]
    dsimp only
    rw [if_neg (by simp [h4])]
    have hl2 : ∀ x ∈ l2, ¬(x.label = label) := by
      intro x hx hxl
      rw [h1, List.map_append] at hnd
      have : i.label ∉ (l2.map Invoice.label) :=
        fun hmem => (List.nodup_cons.mp (hnd.of_append_right)).1 hmem
      exact this (by rw [h3, ← hxl]; exact List.mem_map_of_mem Invoice.label hx)
    have hfilter : (l1 ++ i :: l2).filter (fun j => j.label ≠ label)
        = l1 ++ l2 := by
      rw [List.filter_append]
      have hf1 : l1.filter (fun j => j.label ≠ label) = l1 :=
        List.filter_eq_self.mpr (fun x hx => by simpa using h2 x hx)
      have hf2 : (i :: l2).filter (fun j => j.label ≠ label) = l2 := by
        rw [List.filter_cons_of_neg (by simp [h3]),
            List.filter_eq_self.mpr (fun x hx => by simpa using hl2 x hx)]
      rw [hf1, hf2]
    rw [hfilter]

/-- C2 amended: a fresh invoice starts unpaid with
`expires_at = creation time + expiry`; a successful `listinvoices` call at
virtual time `now` leaves an unpaid invoice unpaid when `now ≤ expires_at`
and flips it to expired exactly when `now > expires_at` (strictly — at
`now = expires_at` it is still unpaid, see `C2_counterexample`). -/
theorem C2_amended_expiry_boundary :
    (∀ (T : Int) (a : InvoiceArgs) (ph b11 : String),
       (_new_invoice T a ph b11).status = "unpaid" ∧
       (_new_invoice T a ph b11).expires_at = T + a.expiry) ∧
    (∀ (wall : Int) (s s' : DaemonState) (out : List Invoice) (k : ℕ)
       (i : Invoice), listinvoices wall s = .ok (s', out) →
       s.invoices[k]? = some i → i.status = "unpaid" →
       (s'.invoices[k]?).map Invoice.status =
         some (if i.expires_at < _get_time wall s then "expired"
               else "unpaid")) := by
  constructor
  · intro T a ph b11
    exact ⟨rfl, rfl⟩
  · intro wall s s' out k i hok hk hst
    obtain ⟨h1, -⟩ := listinvoices_ok _ _ _ _ hok
    rw [h1, List.getElem?_map, hk]
    show some ((markExpired (_get_time wall s) i).status) = _
    rw [markExpired_unpaid _ _ hst]

/-- C2 amended witness: the single unpaid invoice of `c2state`
(`expires_at = 600`) is reported expired by a `listinvoices` call at
virtual time 601. -/
theorem C2_amended_witness :
    ((step 601 Op.listinvoices c2state).invoices[0]?).map Invoice.status
      = some "expired" := by
  have := C2_amended_expiry_boundary.2 601 c2state
    (step 601 Op.listinvoices c2state)
    (step 601 Op.listinvoices c2state).invoices 0
    (_new_invoice 0 argsA "ph0" "bolt0") rfl rfl rfl
  simpa using this

/-- C1 amended witness: paying `b` in `c1wstate` (which already holds `a`
paid with `pay_index = 1`) assigns `pay_index = 2 > 1`. -/
theorem C1_amended_witness :
    markpaid 0 c1wstate "b" = .ok (step 0 (.markpaid "b") c1wstate, none) ∧
    (1 : Int) < 2 :=
  ⟨rfl,
   C1_amended_next_index_exceeds_current 0 c1wstate "b"
     (step 0 (.markpaid "b") c1wstate) c1wpaidB 2 rfl (by decide) rfl
     c1wpaid (by decide) rfl 1 rfl⟩

/-- C7 witness: `markpaid a` on the store holding only the fresh invoice `a`
(`msatoshi = 10000`) yields status paid, `pay_index = 1`,
`msatoshi_recieved = 10033`. -/
theorem C7_markpaid_witness :
    markpaid 0 c2state "a" = .ok (step 0 (.markpaid "a") c2state, none) ∧
    (step 0 (.markpaid "a") c2state).invoices.find?
        (fun j => j.label = "a") = some
      { _new_invoice 0 argsA "ph0" "bolt0" with
        status := "paid"
        paid_at := some (_get_time 0 c2state)
        paid_timestamp := some (_get_time 0 c2state)
        msatoshi_recieved := some 10033
        pay_index := some 1 } :=
  ⟨rfl,
   C7_markpaid_first_payment 0 c2state "a" (step 0 (.markpaid "a") c2state)
     (_new_invoice 0 argsA "ph0" "bolt0") rfl rfl (by decide) rfl rfl⟩

/-- C8 witness: deleting the paid invoice `a` from `c1wstate` with
`expected_status = paid` removes exactly that invoice and returns no error. -/
theorem C8_delinvoice_witness :
    delinvoice c1wstate "a" "paid"
      = ({ c1wstate with invoices := [_new_invoice 0 argsB "ph1" "bolt1"] },
         none) :=
  (C8_delinvoice c1wstate "a" "paid").2.2 c1wpaid []
    [_new_invoice 0 argsB "ph1" "bolt1"] (by decide)
    (fun x hx => absurd hx (List.not_mem_nil x)) rfl rfl (by decide)

theorem markpaid_ok_err (wall : Int) (s : DaemonState) (label : String)
    (s' : DaemonState) (e : RpcError)
    (h : markpaid wall s label = .ok (s', some e)) : s' = s := by
  simp only [markpaid] at h
  cases hloop : markpaidLoop (_get_time wall s) s.invoices label s.invoices with
  | error e' => rw [hloop] at h; cases h
  | ok o =>
    cases o with
    | none => rw [hloop] at h; cases h; rfl
    | some invoices' => rw [hloop] at h; cases h

theorem step_invoices_shape (wall : Int) (op : Op) (s : DaemonState) :
    (step wall op s).invoices.Sublist s.invoices ∨
    (∃ a ph b11, op = .invoice a ph b11 ∧
       (step wall op s).invoices
         = s.invoices ++ [_new_invoice (_get_time wall s) a ph b11] ∧
       (s.invoices.map Invoice.label).contains a.label = false) ∨
    ((step wall op s).invoices
       = s.invoices.map (markExpired (_get_time wall s))) ∨
    (∃ l1 i i' l2, s.invoices = l1 ++ i :: l2 ∧
       (step wall op s).invoices = l1 ++ i' :: l2 ∧
       i'.label = i.label ∧ i'.status = "paid") := by
  cases op with
  | invoice a ph b11 =>
    cases hres : invoice wall s a ph b11 with
    | error e =>
      left
      simp only [step, hres]
      exact List.Sublist.refl _
    | ok so =>
      obtain ⟨s2, o⟩ := so
      obtain ⟨hs2, hc⟩ := invoice_ok _ _ _ _ _ _ _ hres
      right; left
      refine ⟨a, ph, b11, rfl, ?_, hc⟩
      simp only [step, hres, hs2]
  | listinvoices =>
    cases hres : listinvoices wall s with
    | error e =>
      left
      simp only [step, hres]
      exact List.Sublist.refl _
    | ok so =>
      obtain ⟨s2, out⟩ := so
      obtain ⟨h1, -⟩ := listinvoices_ok _ _ _ _ hres
      right; right; left
      simp only [step, hres]
      exact h1
  | autocleaninvoice a =>
    left
    exact List.Sublist.refl _
  | delinvoice label status =>
    left
    show ((delinvoice s label status).1.invoices).Sublist s.invoices
    unfold delinvoice
    cases hf : s.invoices.find? (fun i => i.label = label) with
    | none =>
      exact List.Sublist.refl _
    | some inv =>
      dsimp only
      split
      · exact List.Sublist.refl _
      · exact List.filter_sublist _
  | markpaid label =>
    cases hres : markpaid wall s label with
    | error e =>
      left
      simp only [step, hres]
      exact List.Sublist.refl _
    | ok so =>
      obtain ⟨s2, r⟩ := so
      cases r with
      | none =>
        obtain ⟨l1, i, i', l2, h1, h2, h3, h4, h5, -⟩ :=
          markpaid_ok_none _ _ _ _ hres
        obtain ⟨n, hn, hi'⟩ := set_paid_some _ _ _ _ h5
        right; right; right
        refine ⟨l1, i, i', l2, h1, ?_, by rw [hi'], by rw [hi']⟩
        simp only [step, hres]
        exact h2
      | some err =>
        left
        have := markpaid_ok_err _ _ _ _ _ hres
        simp only [step, hres, this]
        exact List.Sublist.refl _
  | advancetime seconds =>
    left
    exact List.Sublist.refl _
  | reset =>
    left
    exact List.nil_sublist _

theorem step_labels_nodup (wall : Int) (op : Op) (s : DaemonState)
    (h : (s.invoices.map Invoice.label).Nodup) :
    ((step wall op s).invoices.map Invoice.label).Nodup := by
  rcases step_invoices_shape wall op s with
    hsub | ⟨a, ph, b11, -, heq, hc⟩ | heq | ⟨l1, i, i', l2, h1, h2, hlab, -⟩
  · exact ((hsub.map Invoice.label).nodup h)
  · rw [heq, List.map_append, List.nodup_append]
    refine ⟨h, List.nodup_singleton _, ?_⟩
    intro x hx hy
    have hxa : x = a.label := by simpa using hy
    have hx' : (List.map Invoice.label s.invoices).contains a.label = true :=
      List.elem_iff.mpr (hxa ▸ hx)
    rw [hx'] at hc
    cases hc
  · rw [heq, List.map_map]
    have hcomp : (Invoice.label ∘ markExpired (_get_time wall s))
        = Invoice.label := funext (fun i => markExpired_label _ i)
    rw [hcomp]
    exact h
  · rw [h2, List.map_append, List.map_cons, hlab]
    rw [h1, List.map_append, List.map_cons] at h
    exact h

theorem reachable_nodup_labels {s : DaemonState} (h : Reachable s) :
    (s.invoices.map Invoice.label).Nodup := by
  induction h with
  | init => exact List.nodup_nil
  | next wall op _ ih => exact step_labels_nodup wall op _ ih

theorem label_inj_of_nodup {l : List Invoice}
    (h : (l.map Invoice.label).Nodup) {i j : Invoice}
    (hi : i ∈ l) (hj : j ∈ l) (hl : i.label = j.label) : i = j :=
  List.inj_on_of_nodup_map h hi hj hl

/-- C3 amended: on a reachable state, one subcommand changes a surviving
invoice's status only from unpaid to expired (the `listinvoices` sweep) or to
paid (a `markpaid` hit, regardless of the previous status — so paid is
terminal but expired is not, see `C3_counterexample`). -/
theorem C3_amended_status_transitions {s : DaemonState} (hs : Reachable s)
    (wall : Int) (op : Op) (i : Invoice) (hi : i ∈ s.invoices)
    (i' : Invoice) (hi' : i' ∈ (step wall op s).invoices)
    (hlab : i'.label = i.label) :
    i'.status = i.status ∨
    (i.status = "unpaid" ∧ i'.status = "expired") ∨
    i'.status = "paid" := by
  have hnd := reachable_nodup_labels hs
  rcases step_invoices_shape wall op s with
    hsub | ⟨a, ph, b11, -, heq, hc⟩ | heq | ⟨l1, j, j', l2, h1, h2, hjl, hjs⟩
  · rw [label_inj_of_nodup hnd (hsub.subset hi') hi hlab]
    exact Or.inl rfl
  · rw [heq] at hi'
    rcases List.mem_append.mp hi' with hold | hnew
    · rw [label_inj_of_nodup hnd hold hi hlab]
      exact Or.inl rfl
    · exfalso
      have hieq : i' = _new_invoice (_get_time wall s) a ph b11 := by
        simpa using hnew
      have hlabm : a.label ∈ s.invoices.map Invoice.label := by
        have : i'.label = a.label := by rw [hieq]; rfl
        rw [← this, hlab]
        exact List.mem_map_of_mem Invoice.label hi
      have hc' : (List.map Invoice.label s.invoices).contains a.label = true :=
        List.elem_iff.mpr hlabm
      rw [hc'] at hc
      cases hc
  · rw [heq] at hi'
    obtain ⟨j, hj, hj'⟩ := List.mem_map.mp hi'
    have hjlab : j.label = i.label := by
      rw [← hlab, ← hj']
      exact (markExpired_label _ _).symm
    rw [label_inj_of_nodup hnd hj hi hjlab] at hj'
    rw [← hj']
    rcases markExpired_status (_get_time wall s) i with hsame | hflip
    · exact Or.inl hsame
    · exact Or.inr (Or.inl ⟨hflip.1, hflip.2⟩)
  · rw [h2] at hi'
    rcases List.mem_append.mp hi' with hml | hmr
    · have hmem : i' ∈ s.invoices := by
        rw [h1]
        exact List.mem_append.mpr (Or.inl hml)
      rw [label_inj_of_nodup hnd hmem hi hlab]
      exact Or.inl rfl
    · rcases List.mem_cons.mp hmr with rfl | hml2
      · exact Or.inr (Or.inr hjs)
      · have hmem : i' ∈ s.invoices := by
          rw [h1]
          exact List.mem_append.mpr (Or.inr (List.mem_cons_of_mem _ hml2))
        rw [label_inj_of_nodup hnd hmem hi hlab]
        exact Or.inl rfl

theorem c1wstate_reachable : Reachable c1wstate :=
  Reachable.next 0 (.invoice argsB "ph1" "bolt1")
    (Reachable.next 0 (.markpaid "a")
      (Reachable.next 0 (.invoice argsA "ph0" "bolt0") Reachable.init))

/-- C3 amended witness: in the reachable state `c1wstate`, `markpaid b`
turns the unpaid invoice `b` into a paid one — the third disjunct. -/
theorem C3_amended_witness :
    c1wpaidB.status = (_new_invoice 0 argsB "ph1" "bolt1").status ∨
    ((_new_invoice 0 argsB "ph1" "bolt1").status = "unpaid" ∧
       c1wpaidB.status = "expired") ∨
    c1wpaidB.status = "paid" :=
  C3_amended_status_transitions c1wstate_reachable 0 (.markpaid "b")
    (_new_invoice 0 argsB "ph1" "bolt1") (by decide) c1wpaidB (by decide) rfl

theorem passExecutes_iff (now : Int) (s : DaemonState) :
    passExecutes now s = true ↔
      s.autoclean_cycle_seconds ≠ 0 ∧
      (∃ lc, s.autoclean_last_clean = some lc ∧
        s.autoclean_cycle_seconds ≤ now - lc) ∧
      s.invoices = [] := by
  unfold passExecutes
  cases hlc : s.autoclean_last_clean with
  | none => simp [hlc]
  | some lc => simp [hlc, List.isEmpty_iff, and_assoc]

theorem autoclean_pass_true (now : Int) (s : DaemonState)
    (hp : passExecutes now s = true) :
    _autoclean now s = .ok { s with
      invoices := []
      autoclean_last_clean := some now } := by
  obtain ⟨hcyc, ⟨lc0, hlc, hge⟩, hinv⟩ := (passExecutes_iff _ _).mp hp
  unfold _autoclean
  rw [if_neg hcyc, hlc]
  dsimp only
  rw [if_neg (by omega), hinv]
  rfl

theorem autoclean_no_pass (now : Int) (s s' : DaemonState)
    (hp : ¬(passExecutes now s = true)) (h : _autoclean now s = .ok s') :
    s' = s := by
  unfold _autoclean at h
  split at h
  · cases h
    rfl
  · rename_i hcyc
    split at h
    · cases h
    · rename_i lc0 hlc
      split at h
      · cases h
        rfl
      · rename_i hge
        split at h
        · cases h
        · rename_i remaining hrem
          cases h
          exfalso
          cases hinv : s.invoices with
          | nil =>
            exact hp ((passExecutes_iff _ _).mpr
              ⟨hcyc, ⟨lc0, hlc, by omega⟩, hinv⟩)
          | cons a l =>
            rw [hinv] at hrem
            simp only [_iter_remaining] at hrem
            cases hrem

theorem passExecutes_markExpired (now : Int) (s : DaemonState) :
    passExecutes now
      { s with invoices := s.invoices.map (markExpired now) }
      = passExecutes now s := by
  unfold passExecutes
  cases s.invoices <;> rfl

theorem listinvoices_step_pass (wall : Int) (s : DaemonState)
    (hp : passExecutes (_get_time wall s) s = true) :
    step wall .listinvoices s =
      { s with
        invoices := []
        autoclean_last_clean := some (_get_time wall s) } := by
  have hp1 : passExecutes (_get_time wall s)
      { s with invoices := s.invoices.map (markExpired (_get_time wall s)) }
        = true := by
    rw [passExecutes_markExpired]
    exact hp
  have hpass := autoclean_pass_true (_get_time wall s) _ hp1
  simp only [step, listinvoices, hpass]

theorem listinvoices_step_no_pass (wall : Int) (s : DaemonState)
    (hp : ¬(passExecutes (_get_time wall s) s = true)) :
    (step wall .listinvoices s).autoclean_last_clean
        = s.autoclean_last_clean ∧
    (step wall .listinvoices s).autoclean_cycle_seconds
        = s.autoclean_cycle_seconds := by
  cases hres : listinvoices wall s with
  | error e =>
    simp only [step, hres]
    constructor <;> trivial
  | ok so =>
    obtain ⟨s2, out⟩ := so
    simp only [listinvoices] at hres
    cases ha : _autoclean (_get_time wall s)
        { s with invoices :=
            s.invoices.map (markExpired (_get_time wall s)) } with
    | error e =>
      rw [ha] at hres
      cases hres
    | ok s3 =>
      rw [ha] at hres
      cases hres
      have hp1 : ¬(passExecutes (_get_time wall s)
          { s with invoices :=
              s.invoices.map (markExpired (_get_time wall s)) } = true) := by
        rw [passExecutes_markExpired]
        exact hp
      have hs3 := autoclean_no_pass _ _ _ hp1 ha
      simp only [step, listinvoices, ha, hs3]
      constructor <;> trivial

theorem step_clock_shape (wall : Int) (op : Op) (s : DaemonState)
    (hop : op.isAutocleanCfg = false) :
    (op = .listinvoices ∧ passExecutes (_get_time wall s) s = true ∧
       (step wall op s).autoclean_last_clean = some (_get_time wall s) ∧
       (step wall op s).autoclean_cycle_seconds
         = s.autoclean_cycle_seconds) ∨
    (¬(op = .listinvoices ∧ passExecutes (_get_time wall s) s = true) ∧
       (step wall op s).autoclean_last_clean = s.autoclean_last_clean ∧
       (step wall op s).autoclean_cycle_seconds
         = s.autoclean_cycle_seconds) ∨
    (op = .reset ∧ (step wall op s).autoclean_last_clean = none ∧
       (step wall op s).autoclean_cycle_seconds = 0) := by
  cases op with
  | invoice a ph b11 =>
    right; left
    refine ⟨by simp, ?_⟩
    cases hres : invoice wall s a ph b11 with
    | error e =>
      simp only [step, hres]
      constructor <;> trivial
    | ok so =>
      obtain ⟨s2, o⟩ := so
      obtain ⟨hs2, -⟩ := invoice_ok _ _ _ _ _ _ _ hres
      simp only [step, hres, hs2]
      constructor <;> trivial
  | listinvoices =>
    by_cases hp : passExecutes (_get_time wall s) s = true
    · left
      rw [listinvoices_step_pass wall s hp]
      exact ⟨rfl, hp, rfl, rfl⟩
    · right; left
      obtain ⟨h1, h2⟩ := listinvoices_step_no_pass wall s hp
      exact ⟨fun hcon => hp hcon.2, h1, h2⟩
  | autocleaninvoice a =>
    simp [Op.isAutocleanCfg] at hop
  | delinvoice label status =>
    right; left
    refine ⟨by simp, ?_⟩
    show ((delinvoice s label status).1.autoclean_last_clean
        = s.autoclean_last_clean) ∧
      ((delinvoice s label status).1.autoclean_cycle_seconds
        = s.autoclean_cycle_seconds)
    unfold delinvoice
    cases hf : s.invoices.find? (fun i => i.label = label) with
    | none => constructor <;> trivial
    | some inv =>
      dsimp only
      split
      · constructor <;> trivial
      · constructor <;> trivial
  | markpaid label =>
    right; left
    refine ⟨by simp, ?_⟩
    cases hres : markpaid wall s label with
    | error e =>
      simp only [step, hres]
      constructor <;> trivial
    | ok so =>
      obtain ⟨s2, r⟩ := so
      cases r with
      | none =>
        obtain ⟨l1, i, i', l2, -, -, -, -, -, -, hcy, hlc, -⟩ :=
          markpaid_ok_none _ _ _ _ hres
        simp only [step, hres]
        exact ⟨hlc, hcy⟩
      | some err =>
        have hss := markpaid_ok_err _ _ _ _ _ hres
        simp only [step, hres, hss]
        constructor <;> trivial
  | advancetime seconds =>
    right; left
    exact ⟨by simp, rfl, rfl⟩
  | reset =>
    right; right
    exact ⟨rfl, rfl, rfl⟩

theorem passTimes_cons (s : DaemonState) (wall : Int) (op : Op)
    (tr : List (Int × Op)) :
    passTimes s ((wall, op) :: tr) =
      if op = Op.listinvoices ∧ passExecutes (_get_time wall s) s = true
      then _get_time wall s :: passTimes (step wall op s) tr
      else passTimes (step wall op s) tr := by
  cases op <;> simp [passTimes]

theorem passTimes_nil_of_lc_none (tr : List (Int × Op)) :
    ∀ (s : DaemonState),
      (∀ e ∈ tr, (e : Int × Op).2.isAutocleanCfg = false) →
      s.autoclean_last_clean = none → passTimes s tr = [] := by
  induction tr with
  | nil =>
    intro s _ _
    rfl
  | cons e tr ih =>
    obtain ⟨wall, op⟩ := e
    intro s hna hlc
    have hop : op.isAutocleanCfg = false := hna _ (List.mem_cons_self _ _)
    have hna' : ∀ e ∈ tr, (e : Int × Op).2.isAutocleanCfg = false :=
      fun e he => hna e (List.mem_cons_of_mem _ he)
    rw [passTimes_cons]
    rcases step_clock_shape wall op s hop with
      ⟨hop1, hp, hlc', hcy'⟩ | ⟨hnp, hlc', hcy'⟩ | ⟨hop1, hlc', hcy'⟩
    · exfalso
      obtain ⟨-, ⟨lc, hlc2, -⟩, -⟩ := (passExecutes_iff _ _).mp hp
      rw [hlc] at hlc2
      cases hlc2
    · rw [if_neg hnp]
      exact ih _ hna' (by rw [hlc']; exact hlc)
    · rw [if_neg (by rintro ⟨h1, -⟩; rw [hop1] at h1; exact Op.noConfusion h1)]
      exact ih _ hna' hlc'

theorem passTimes_head_bound (tr : List (Int × Op)) :
    ∀ (s : DaemonState) (lc c : Int),
      (∀ e ∈ tr, (e : Int × Op).2.isAutocleanCfg = false) →
      s.autoclean_last_clean = some lc →
      s.autoclean_cycle_seconds = c →
      ∀ t1, (passTimes s tr).head? = some t1 → c ≤ t1 - lc := by
  induction tr with
  | nil =>
    intro s lc c _ _ _ t1 h
    cases h
  | cons e tr ih =>
    obtain ⟨wall, op⟩ := e
    intro s lc c hna hlc hcy t1 hhd
    have hop : op.isAutocleanCfg = false := hna _ (List.mem_cons_self _ _)
    have hna' : ∀ e ∈ tr, (e : Int × Op).2.isAutocleanCfg = false :=
      fun e he => hna e (List.mem_cons_of_mem _ he)
    rw [passTimes_cons] at hhd
    rcases step_clock_shape wall op s hop with
      ⟨hop1, hp, hlc', hcy'⟩ | ⟨hnp, hlc', hcy'⟩ | ⟨hop1, hlc', hcy'⟩
    · rw [if_pos ⟨hop1, hp⟩] at hhd
      rw [List.head?_cons] at hhd
      cases hhd
      obtain ⟨-, ⟨lc2, hlc2, hge⟩, -⟩ := (passExecutes_iff _ _).mp hp
      rw [hlc] at hlc2
      cases hlc2
      omega
    · rw [if_neg hnp] at hhd
      exact ih _ lc c hna' (by rw [hlc']; exact hlc)
        (by rw [hcy']; exact hcy) t1 hhd
    · have hne : ¬(op = Op.listinvoices ∧
          passExecutes (_get_time wall s) s = true) := by
        rintro ⟨h1, -⟩
        rw [hop1] at h1
        exact Op.noConfusion h1
      rw [if_neg hne] at hhd
      rw [passTimes_nil_of_lc_none tr _ hna' hlc'] at hhd
      cases hhd

theorem passTimes_chain (tr : List (Int × Op)) :
    ∀ (s : DaemonState) (c : Int),
      (∀ e ∈ tr, (e : Int × Op).2.isAutocleanCfg = false) →
      s.autoclean_cycle_seconds = c →
      (passTimes s tr).Chain' (fun t1 t2 => c ≤ t2 - t1) := by
  induction tr with
  | nil =>
    intro s c _ _
    exact List.chain'_nil
  | cons e tr ih =>
    obtain ⟨wall, op⟩ := e
    intro s c hna hcy
    have hop : op.isAutocleanCfg = false := hna _ (List.mem_cons_self _ _)
    have hna' : ∀ e ∈ tr, (e : Int × Op).2.isAutocleanCfg = false :=
      fun e he => hna e (List.mem_cons_of_mem _ he)
    rw [passTimes_cons]
    rcases step_clock_shape wall op s hop with
      ⟨hop1, hp, hlc', hcy'⟩ | ⟨hnp, hlc', hcy'⟩ | ⟨hop1, hlc', hcy'⟩
    · rw [if_pos ⟨hop1, hp⟩, List.chain'_cons']
      constructor
      · intro t2 ht2
        exact passTimes_head_bound tr _ (_get_time wall s) c hna' hlc'
          (by rw [hcy']; exact hcy) t2 (Option.mem_def.mp ht2)
      · exact ih _ c hna' (by rw [hcy']; exact hcy)
    · rw [if_neg hnp]
      exact ih _ c hna' (by rw [hcy']; exact hcy)
    · rw [if_neg (by rintro ⟨h1, -⟩; rw [hop1] at h1; exact Op.noConfusion h1)]
      rw [passTimes_nil_of_lc_none tr _ hna' hlc']
      exact List.chain'_nil

/-- C5 amended: (a) a `listinvoices` call that returns never removes an
invoice — every stored invoice survives (with at most its expiry status
flipped), so in particular no invoice is ever pruned before its retention
window `autoclean_expired_by` has elapsed; (b) along any run containing no
`autocleaninvoice` reconfiguration, consecutive completed autoclean passes
are at least `autoclean_cycle_seconds` of virtual time apart.  (With an
intervening `autocleaninvoice` the rate limit can be defeated, see
`C5_counterexample`.) -/
theorem C5_amended_autoclean :
    (∀ (wall : Int) (s s' : DaemonState) (out : List Invoice),
       listinvoices wall s = .ok (s', out) →
       ∀ i ∈ s.invoices, markExpired (_get_time wall s) i ∈ s'.invoices) ∧
    (∀ (s : DaemonState) (tr : List (Int × Op)),
       (∀ e ∈ tr, (e : Int × Op).2.isAutocleanCfg = false) →
       (passTimes s tr).Chain'
         (fun t1 t2 => s.autoclean_cycle_seconds ≤ t2 - t1)) := by
  constructor
  · intro wall s s' out h i hi
    obtain ⟨h1, -⟩ := listinvoices_ok _ _ _ _ h
    rw [h1]
    exact List.mem_map_of_mem _ hi
  · intro s tr hna
    exact passTimes_chain tr s _ hna rfl

/-- C5 amended witness: the fresh invoice of `c2state` survives a returning
`listinvoices` call, and the autoclean-armed `c5wstate`, run through two
`listinvoices` calls at virtual times 100 and 200 with no reconfiguration,
performs passes at least 60 apart. -/
theorem C5_amended_witness :
    (listinvoices 600 c2state = .ok (c2state, c2state.invoices) ∧
     markExpired 600 (_new_invoice 0 argsA "ph0" "bolt0")
       ∈ c2state.invoices) ∧
    ((∀ e ∈ [((100 : Int), Op.listinvoices), ((200 : Int), Op.listinvoices)],
        (e : Int × Op).2.isAutocleanCfg = false) ∧
     (passTimes c5wstate
        [((100 : Int), Op.listinvoices), ((200 : Int), Op.listinvoices)]).Chain'
       (fun t1 t2 => c5wstate.autoclean_cycle_seconds ≤ t2 - t1)) :=
  ⟨⟨rfl, C5_amended_autoclean.1 600 c2state c2state c2state.invoices rfl
      (_new_invoice 0 argsA "ph0" "bolt0") (by decide)⟩,
   ⟨by decide, C5_amended_autoclean.2 c5wstate
      [((100 : Int), Op.listinvoices), ((200 : Int), Op.listinvoices)]
      (by decide)⟩⟩
